import Mathlib

/-!
Verification of the rustbeam ray tracer.

This file gives a shallow embedding, in Lean 4, of the parts of the
rustbeam renderer that the verified properties talk about:

* the pixel-coordinate stream of `Scene::render` and its union across the
  worker threads spawned by `Scene::spawn_render_threads` (src/scene.rs);
* the nearest-hit search `Scene::trace` (src/scene.rs);
* `Sphere::closest_intersection` together with the bounding-box slab test
  `BoundingBox::intersects` and `Interval` (src/surfaces.rs, src/math.rs);
* the vector algebra `Vector3` and `Ray::new` (src/math.rs);
* the sun light constructor `Sun::new` (src/lights.rs);
* the image buffer: `Image::set_pixel`, `Image::min_max`,
  `Image::linear_to_srgb` (src/image.rs).

Machine floats (`f64`) are embedded as real numbers; the two infinities
used as initial values by the source (`std::f64::INFINITY` and
`NEG_INFINITY`) are embedded as `⊤` and `⊥` of `EReal`.  Fallible code is
embedded with `Option`, and the assertion/index-panic behaviour of
`Image::set_pixel` with an explicit result type.
-/

open scoped Classical

namespace Rustbeam

/-! ### Render-loop pixel streams (src/scene.rs, `Scene::render`) -/

/-- The stream of `(pixel_x, pixel_y)` coordinate pairs that one call
`Scene::render(width, height, sender, thread_id, num_threads)` sends, in
emission order.  The loop structure of the source is mirrored exactly: the
outer loop runs `pixel_y` over `0..height`, skips the line when
`(pixel_y + thread_id) % num_threads != 0`, and otherwise the inner loop
sends one pixel for every `pixel_x` in `0..width`.  The colour sent with
each pair is computed independently per pixel and never affects which
coordinates are sent, so it is omitted here. -/
def renderCoords (width height thread_id num_threads : ℕ) : List (ℕ × ℕ) :=
  (List.range height).flatMap (fun pixel_y =>
    if (pixel_y + thread_id) % num_threads ≠ 0 then []
    else (List.range width).map (fun pixel_x => (pixel_x, pixel_y)))

/-- The union (concatenation) of the coordinate streams of the workers
with `thread_id = 0, 1, ..., num_threads - 1`, which is the set of calls
that `Scene::spawn_render_threads` makes (it spawns ids `1..num_threads-1`
and then runs id `0`). -/
def allRenderCoords (width height num_threads : ℕ) : List (ℕ × ℕ) :=
  (List.range num_threads).flatMap
    (fun thread_id => renderCoords width height thread_id num_threads)

/-- Number of occurrences of the coordinate pair `p` in a pixel stream. -/
def countPair (p : ℕ × ℕ) : List (ℕ × ℕ) → ℕ
  | [] => 0
  | q :: rest => (if q = p then 1 else 0) + countPair p rest

lemma countPair_append (p : ℕ × ℕ) (l₁ l₂ : List (ℕ × ℕ)) :
    countPair p (l₁ ++ l₂) = countPair p l₁ + countPair p l₂ := by
  induction l₁ with
  | nil => simp [countPair]
  | cons q rest ih => simp [countPair, ih]; omega

lemma length_flatMap_eq {α β : Type} (l : List α) (f : α → List β) :
    (l.flatMap f).length = (l.map (fun a => (f a).length)).sum := by
  induction l with
  | nil => simp
  | cons a rest ih => simp [ih]

lemma sum_map_add {α : Type} (l : List α) (f g : α → ℕ) :
    (l.map (fun a => f a + g a)).sum = (l.map f).sum + (l.map g).sum := by
  induction l with
  | nil => simp
  | cons a rest ih => simp [ih]; omega

lemma countPair_row (w y' x y : ℕ) :
    countPair (x, y) ((List.range w).map (fun px => (px, y'))) =
      if x < w ∧ y' = y then 1 else 0 := by
  induction w with
  | zero => simp [countPair]
  | succ w ih =>
    rw [List.range_succ, List.map_append, countPair_append, ih]
    simp only [List.map_cons, List.map_nil, countPair, Nat.add_zero]
    simp only [Prod.mk.injEq]
    split_ifs <;> omega

lemma countPair_renderCoords (w h tid n x y : ℕ) :
    countPair (x, y) (renderCoords w h tid n) =
      if (y + tid) % n = 0 ∧ x < w ∧ y < h then 1 else 0 := by
  induction h with
  | zero => simp [renderCoords, countPair]
  | succ h ih =>
    unfold renderCoords at ih ⊢
    rw [List.range_succ, List.flatMap_append, countPair_append, ih]
    have hsing : (List.flatMap [h]
        (fun pixel_y => if (pixel_y + tid) % n ≠ 0 then []
          else (List.range w).map (fun pixel_x => (pixel_x, pixel_y)))) =
        (if (h + tid) % n ≠ 0 then []
          else (List.range w).map (fun pixel_x => (pixel_x, h))) := by
      simp
    rw [hsing]
    have htail : countPair (x, y)
        (if (h + tid) % n ≠ 0 then []
          else (List.range w).map (fun pixel_x => (pixel_x, h))) =
        if (y + tid) % n = 0 ∧ x < w ∧ y = h then 1 else 0 := by
      by_cases hcond : (h + tid) % n = 0
      · rw [if_neg (fun hc => hc hcond), countPair_row]
        by_cases hy : y = h
        · subst hy
          by_cases hx : x < w
          · rw [if_pos ⟨hx, rfl⟩, if_pos ⟨hcond, hx, rfl⟩]
          · rw [if_neg (fun hc => hx hc.1), if_neg (fun hc => hx hc.2.1)]
        · rw [if_neg (fun hc => hy hc.2.symm), if_neg (fun hc => hy hc.2.2)]
      · rw [if_pos hcond, show countPair (x, y) [] = 0 from rfl,
          if_neg (fun hc => hcond (by rw [← hc.2.2]; exact hc.1))]
    rw [htail]
    by_cases hA : (y + tid) % n = 0
    · by_cases hx : x < w
      · rcases Nat.lt_trichotomy y h with hy | hy | hy
        · rw [if_pos ⟨hA, hx, hy⟩, if_neg (fun hc => by omega),
            if_pos ⟨hA, hx, by omega⟩]
        · rw [if_neg (fun hc => by omega), if_pos ⟨hA, hx, hy⟩,
            if_pos ⟨hA, hx, by omega⟩]
        · rw [if_neg (fun hc => by omega), if_neg (fun hc => by omega),
            if_neg (fun hc => by omega)]
      · rw [if_neg (fun hc => hx hc.2.1), if_neg (fun hc => hx hc.2.1),
          if_neg (fun hc => hx hc.2.1)]
    · rw [if_neg (fun hc => hA hc.1), if_neg (fun hc => hA hc.1),
        if_neg (fun hc => hA hc.1)]

lemma mod_add_eq_zero_iff (n y tid : ℕ) (hn : 0 < n) (htid : tid < n) :
    (y + tid) % n = 0 ↔ tid = (n - y % n) % n := by
  rw [Nat.add_mod, Nat.mod_eq_of_lt htid]
  have hr : y % n < n := Nat.mod_lt _ hn
  rcases Nat.eq_zero_or_pos (y % n) with hr0 | hrpos
  · rw [hr0, Nat.zero_add, Nat.mod_eq_of_lt htid, Nat.sub_zero, Nat.mod_self]
  · have hlt : n - y % n < n := by omega
    rw [Nat.mod_eq_of_lt hlt]
    constructor
    · intro hz
      have hdvd : n ∣ (y % n + tid) := Nat.dvd_iff_mod_eq_zero.mpr hz
      obtain ⟨k, hk⟩ := hdvd
      have hub : y % n + tid < 2 * n := by omega
      have hlb : 0 < y % n + tid := by omega
      have hkpos : 0 < k := by
        rcases Nat.eq_zero_or_pos k with rfl | hkp
        · simp at hk
          omega
        · exact hkp
      have hk2 : k < 2 := by
        by_contra hge
        push_neg at hge
        have hmul : n * 2 ≤ n * k := Nat.mul_le_mul_left n hge
        omega
      have hk1 : k = 1 := by omega
      rw [hk1, Nat.mul_one] at hk
      omega
    · intro heq
      have : y % n + tid = n := by omega
      rw [this, Nat.mod_self]

lemma sum_map_range_indicator (n t0 c : ℕ) (ht : t0 < n) :
    (((List.range n).map (fun t => if t = t0 then c else 0)).sum : ℕ) = c := by
  induction n with
  | zero => omega
  | succ n ih =>
    rw [List.range_succ, List.map_append, List.sum_append]
    by_cases hn : t0 < n
    · rw [ih hn]
      have hne : ¬ (n = t0) := by omega
      simp [hne]
    · have ht0 : t0 = n := by omega
      subst ht0
      have hzero : (((List.range t0).map (fun t => if t = t0 then c else 0)).sum : ℕ) = 0 := by
        apply List.sum_eq_zero
        intro a ha
        simp only [List.mem_map, List.mem_range] at ha
        obtain ⟨i, hi, hia⟩ := ha
        rw [if_neg (by omega)] at hia
        omega
      rw [hzero]
      simp

lemma countPair_flatMap_range (m : ℕ) (f : ℕ → List (ℕ × ℕ)) (p : ℕ × ℕ) :
    countPair p ((List.range m).flatMap f) =
      ((List.range m).map (fun t => countPair p (f t))).sum := by
  induction m with
  | zero => simp [countPair]
  | succ m ih =>
    rw [List.range_succ, List.flatMap_append, countPair_append, ih,
      List.map_append, List.sum_append]
    simp [countPair_append, countPair]

lemma countPair_allRenderCoords (w h n x y : ℕ) (hn : 1 ≤ n) :
    countPair (x, y) (allRenderCoords w h n) = if x < w ∧ y < h then 1 else 0 := by
  unfold allRenderCoords
  rw [countPair_flatMap_range]
  by_cases hin : x < w ∧ y < h
  · rw [if_pos hin]
    set t0 := (n - y % n) % n with ht0def
    have ht0 : t0 < n := Nat.mod_lt _ hn
    have hmapeq : (List.range n).map
          (fun tid => countPair (x, y) (renderCoords w h tid n)) =
        (List.range n).map (fun t => if t = t0 then 1 else 0) := by
      apply List.map_congr_left
      intro tid htidmem
      rw [List.mem_range] at htidmem
      rw [countPair_renderCoords]
      rcases (mod_add_eq_zero_iff n y tid hn htidmem) with ⟨hfwd, hbwd⟩
      by_cases hcase : tid = t0
      · rw [if_pos ⟨hbwd hcase, hin.1, hin.2⟩, if_pos hcase]
      · rw [if_neg (by
          rintro ⟨h1, _, _⟩
          exact hcase (hfwd h1)), if_neg hcase]
    rw [hmapeq]
    exact sum_map_range_indicator n t0 1 ht0
  · rw [if_neg hin]
    apply List.sum_eq_zero
    intro a ha
    simp only [List.mem_map, List.mem_range] at ha
    obtain ⟨tid, htid, hval⟩ := ha
    rw [countPair_renderCoords] at hval
    rw [if_neg (by tauto)] at hval
    omega

lemma length_renderCoords (w h tid n : ℕ) :
    (renderCoords w h tid n).length =
      ((List.range h).map
        (fun y => if (y + tid) % n = 0 then w else 0)).sum := by
  unfold renderCoords
  rw [length_flatMap_eq]
  apply congrArg
  apply List.map_congr_left
  intro y _
  by_cases hc : (y + tid) % n = 0
  · rw [if_neg (by omega), if_pos hc, List.length_map, List.length_range]
  · rw [if_pos (by omega), if_neg hc, List.length_nil]

lemma length_allRenderCoords (w h n : ℕ) (hn : 1 ≤ n) :
    (allRenderCoords w h n).length = w * h := by
  unfold allRenderCoords
  rw [length_flatMap_eq]
  induction h with
  | zero =>
    have : (List.range n).map
        (fun tid => (renderCoords w 0 tid n).length) =
        (List.range n).map (fun _ => 0) := by
      apply List.map_congr_left
      intro tid _
      rw [length_renderCoords]
      simp
    rw [this]
    simp
  | succ h ih =>
    have hsplit : (List.range n).map
        (fun tid => (renderCoords w (h + 1) tid n).length) =
        (List.range n).map
          (fun tid => (renderCoords w h tid n).length +
            (if (h + tid) % n = 0 then w else 0)) := by
      apply List.map_congr_left
      intro tid _
      rw [length_renderCoords, length_renderCoords, List.range_succ,
        List.map_append, List.sum_append]
      simp
    rw [hsplit, sum_map_add, ih]
    set t0 := (n - h % n) % n with ht0def
    have ht0 : t0 < n := Nat.mod_lt _ hn
    have hmapeq : (List.range n).map
          (fun tid => if (h + tid) % n = 0 then w else 0) =
        (List.range n).map (fun t => if t = t0 then w else 0) := by
      apply List.map_congr_left
      intro tid htidmem
      rw [List.mem_range] at htidmem
      rcases (mod_add_eq_zero_iff n h tid hn htidmem) with ⟨hfwd, hbwd⟩
      by_cases hcase : tid = t0
      · rw [if_pos (hbwd hcase), if_pos hcase]
      · rw [if_neg (fun h1 => hcase (hfwd h1)), if_neg hcase]
    rw [hmapeq, sum_map_range_indicator n t0 w ht0]
    ring

/-- C1: for every width, height and `num_threads ≥ 1`, the union of the
coordinate streams produced by `Scene::render` for
`thread_id = 0 .. num_threads - 1` (the calls made by
`Scene::spawn_render_threads`) contains exactly `width * height` items,
and every pair `(x, y)` with `x < width`, `y < height` occurs exactly once
across all workers. -/
theorem render_union_covers_grid (width height num_threads : ℕ)
    (hn : 1 ≤ num_threads) :
    (allRenderCoords width height num_threads).length = width * height ∧
    ∀ x y, x < width → y < height →
      countPair (x, y) (allRenderCoords width height num_threads) = 1 := by
  constructor
  · exact length_allRenderCoords width height num_threads hn
  · intro x y hx hy
    rw [countPair_allRenderCoords width height num_threads x y hn]
    rw [if_pos ⟨hx, hy⟩]

/-- Witness for C1 at `width = 2`, `height = 3`, `num_threads = 2`. -/
theorem render_union_covers_grid_witness :
    1 ≤ 2 ∧ (allRenderCoords 2 3 2).length = 2 * 3 ∧
      countPair (1, 2) (allRenderCoords 2 3 2) = 1 :=
  ⟨by decide,
    (render_union_covers_grid 2 3 2 (by decide)).1,
    (render_union_covers_grid 2 3 2 (by decide)).2 1 2 (by decide) (by decide)⟩

/-- C4 as stated is false: with `num_threads = 3` and `thread_id = 1`, the
worker emits the pixel `(0, 2)` of row `2`, a row with
`2 % 3 = 2 ≠ 1 = thread_id`, so the worker does emit pixels of rows other
than those with `y % num_threads = thread_id`. -/
theorem render_row_assignment_counterexample :
    (0, 2) ∈ renderCoords 1 3 1 3 ∧ ¬ (2 % 3 = 1) := by
  decide

/-- C4 (amended): `Scene::render(width, height, sender, thread_id,
num_threads)` emits pixels for exactly those rows `y < height` with
`(y + thread_id) % num_threads = 0` (round-robin row striping), and emits
no pixel of any other row. -/
theorem render_row_assignment (width height thread_id num_threads x y : ℕ)
    (_hn : 1 ≤ num_threads) :
    (x, y) ∈ renderCoords width height thread_id num_threads ↔
      x < width ∧ y < height ∧ (y + thread_id) % num_threads = 0 := by
  unfold renderCoords
  rw [List.mem_flatMap]
  constructor
  · rintro ⟨py, hpy, hmem⟩
    rw [List.mem_range] at hpy
    by_cases hcond : (py + thread_id) % num_threads ≠ 0
    · rw [if_pos hcond] at hmem
      simp at hmem
    · rw [if_neg hcond] at hmem
      simp only [List.mem_map, List.mem_range] at hmem
      obtain ⟨px, hpx, heq⟩ := hmem
      have hx : px = x := (Prod.mk.injEq _ _ _ _).mp heq |>.1
      have hy : py = y := (Prod.mk.injEq _ _ _ _).mp heq |>.2
      subst hx; subst hy
      push_neg at hcond
      exact ⟨hpx, hpy, hcond⟩
  · rintro ⟨hx, hy, hmod⟩
    refine ⟨y, List.mem_range.mpr hy, ?_⟩
    rw [if_neg (by omega)]
    simp only [List.mem_map, List.mem_range]
    exact ⟨x, hx, rfl⟩

/-- Witness for C4 (amended) at concrete arguments. -/
theorem render_row_assignment_witness :
    1 ≤ 3 ∧ ((0, 2) ∈ renderCoords 1 3 1 3 ↔
      0 < 1 ∧ 2 < 3 ∧ (2 + 1) % 3 = 0) :=
  ⟨by decide, render_row_assignment 1 3 1 3 0 2 (by decide)⟩

/-! ### Vector algebra (src/math.rs, `Vector3` and `Ray`) -/

/-- A 3D vector with `f64` components, embedded over `ℝ`
(src/math.rs, `struct Vector3`). -/
@[ext] structure Vector3 where
  x : ℝ
  y : ℝ
  z : ℝ

namespace Vector3

/-- The zero-vector (src/math.rs, `Vector3::zero`). -/
def zero : Vector3 := ⟨0, 0, 0⟩

/-- The vector with 1 in every component (src/math.rs, `Vector3::ones`). -/
def ones : Vector3 := ⟨1, 1, 1⟩

/-- Dot product (src/math.rs, `Vector3::dot`). -/
def dot (v other : Vector3) : ℝ :=
  v.x * other.x + v.y * other.y + v.z * other.z

/-- The square of the norm (src/math.rs, `Vector3::norm2`). -/
def norm2 (v : Vector3) : ℝ := v.dot v

/-- Norm of the vector (src/math.rs, `Vector3::norm`). -/
noncomputable def norm (v : Vector3) : ℝ := Real.sqrt v.norm2

/-- The zero test of src/math.rs, `Vector3::is_zero`: all three components
compare equal to `0.0`. -/
def is_zero (v : Vector3) : Prop := v.x = 0 ∧ v.y = 0 ∧ v.z = 0

/-- Scaling a vector by a scalar (src/math.rs, `impl Mul<f64> for Vector3`). -/
def mul (v : Vector3) (scalar : ℝ) : Vector3 :=
  ⟨v.x * scalar, v.y * scalar, v.z * scalar⟩

end Vector3

instance : HMul Vector3 ℝ Vector3 := ⟨Vector3.mul⟩

/-- Scalar-on-the-left multiplication delegates to `Vector3.mul`
(src/math.rs, `impl Mul<Vector3> for f64`). -/
instance : HMul ℝ Vector3 Vector3 := ⟨fun scalar v => Vector3.mul v scalar⟩

/-- Componentwise addition (src/math.rs, `impl Add for Vector3`). -/
instance : Add Vector3 := ⟨fun a b => ⟨a.x + b.x, a.y + b.y, a.z + b.z⟩⟩

/-- Componentwise negation (src/math.rs, `impl Neg for Vector3`). -/
instance : Neg Vector3 := ⟨fun a => ⟨-a.x, -a.y, -a.z⟩⟩

/-- Subtraction is addition of the negation (src/math.rs,
`impl Sub for Vector3`). -/
instance : Sub Vector3 := ⟨fun a b => a + (-b)⟩

@[simp] lemma Vector3.mul_def (v : Vector3) (c : ℝ) :
    v * c = ⟨v.x * c, v.y * c, v.z * c⟩ := rfl

@[simp] lemma Vector3.smul_def (c : ℝ) (v : Vector3) :
    c * v = ⟨v.x * c, v.y * c, v.z * c⟩ := rfl

@[simp] lemma Vector3.add_def (a b : Vector3) :
    a + b = ⟨a.x + b.x, a.y + b.y, a.z + b.z⟩ := rfl

@[simp] lemma Vector3.neg_def (a : Vector3) : -a = ⟨-a.x, -a.y, -a.z⟩ := rfl

@[simp] lemma Vector3.sub_def (a b : Vector3) :
    a - b = ⟨a.x + -b.x, a.y + -b.y, a.z + -b.z⟩ := rfl

namespace Vector3

/-- Normalization (src/math.rs, `Vector3::normalize`): scale by the
reciprocal norm unless the vector is zero, in which case nothing is done. -/
noncomputable def normalize (v : Vector3) : Vector3 :=
  if ¬ v.is_zero then v * (1 / v.norm) else v

lemma is_zero_iff (v : Vector3) : v.is_zero ↔ v = zero := by
  constructor
  · rintro ⟨h1, h2, h3⟩
    ext <;> simp [zero, h1, h2, h3]
  · rintro rfl
    exact ⟨rfl, rfl, rfl⟩

lemma norm2_nonneg (v : Vector3) : 0 ≤ v.norm2 := by
  unfold norm2 dot
  nlinarith [mul_self_nonneg v.x, mul_self_nonneg v.y, mul_self_nonneg v.z]

lemma norm2_pos (v : Vector3) (h : ¬ v.is_zero) : 0 < v.norm2 := by
  rcases lt_or_eq_of_le (norm2_nonneg v) with hlt | heq
  · exact hlt
  · exfalso
    apply h
    have h0 : v.x * v.x + v.y * v.y + v.z * v.z = 0 := by
      have := heq.symm
      unfold norm2 dot at this
      linarith
    have hx : v.x = 0 := by
      have hx2 : v.x * v.x = 0 := le_antisymm
        (by nlinarith [mul_self_nonneg v.y, mul_self_nonneg v.z])
        (mul_self_nonneg v.x)
      exact mul_self_eq_zero.mp hx2
    have hy : v.y = 0 := by
      have hy2 : v.y * v.y = 0 := le_antisymm
        (by nlinarith [mul_self_nonneg v.x, mul_self_nonneg v.z])
        (mul_self_nonneg v.y)
      exact mul_self_eq_zero.mp hy2
    have hz : v.z = 0 := by
      have hz2 : v.z * v.z = 0 := le_antisymm
        (by nlinarith [mul_self_nonneg v.x, mul_self_nonneg v.y])
        (mul_self_nonneg v.z)
      exact mul_self_eq_zero.mp hz2
    exact ⟨hx, hy, hz⟩

lemma norm_pos (v : Vector3) (h : ¬ v.is_zero) : 0 < v.norm :=
  Real.sqrt_pos.mpr (norm2_pos v h)

lemma norm_mul (v : Vector3) (c : ℝ) : (v * c).norm = |c| * v.norm := by
  unfold norm norm2 dot
  simp only [mul_def]
  have harith : v.x * c * (v.x * c) + v.y * c * (v.y * c) + v.z * c * (v.z * c) =
      c ^ 2 * (v.x * v.x + v.y * v.y + v.z * v.z) := by ring
  rw [harith, Real.sqrt_mul (sq_nonneg c), Real.sqrt_sq_eq_abs]

lemma norm_normalize (v : Vector3) (h : ¬ v.is_zero) : v.normalize.norm = 1 := by
  unfold normalize
  rw [if_pos h, norm_mul]
  have hpos : 0 < v.norm := norm_pos v h
  rw [abs_of_pos (by positivity)]
  field_simp

lemma normalize_of_is_zero (v : Vector3) (h : v.is_zero) : v.normalize = v := by
  unfold normalize
  rw [if_neg (not_not_intro h)]

lemma norm_eq_zero_of_is_zero (v : Vector3) (h : v.is_zero) : v.norm = 0 := by
  unfold norm norm2 dot
  rw [h.1, h.2.1, h.2.2]
  simp

end Vector3

/-- A ray cast from `origin` in the `direction` direction
(src/math.rs, `struct Ray`). -/
structure Ray where
  origin : Vector3
  direction : Vector3

/-- The ray constructor (src/math.rs, `Ray::new`): the direction argument
is normalized before being stored. -/
noncomputable def Ray.new (origin direction : Vector3) : Ray :=
  ⟨origin, direction.normalize⟩

/-- C5 as stated is false: `Ray::new` called with the zero direction
stores the zero direction (by the `normalize` zero-vector policy), whose
Euclidean norm is `0`, not `1`. -/
theorem ray_unit_direction_counterexample :
    (Ray.new Vector3.zero Vector3.zero).direction.norm = 0 ∧ (0 : ℝ) ≠ 1 := by
  constructor
  · have hz : Vector3.zero.is_zero := ⟨rfl, rfl, rfl⟩
    have hdir : (Ray.new Vector3.zero Vector3.zero).direction = Vector3.zero :=
      Vector3.normalize_of_is_zero _ hz
    rw [hdir]
    exact Vector3.norm_eq_zero_of_is_zero _ hz
  · norm_num

/-- C5 (amended): the `Ray` produced by `Ray::new` has a direction of
Euclidean norm exactly 1 for every nonzero direction argument; the
degenerate zero-direction input instead stores the zero vector. -/
theorem ray_unit_direction (origin direction : Vector3) :
    (direction ≠ Vector3.zero → (Ray.new origin direction).direction.norm = 1) ∧
    (Ray.new origin Vector3.zero).direction = Vector3.zero := by
  constructor
  · intro h
    have hnz : ¬ direction.is_zero := fun hiz => h ((Vector3.is_zero_iff _).mp hiz)
    exact Vector3.norm_normalize _ hnz
  · exact Vector3.normalize_of_is_zero _ ⟨rfl, rfl, rfl⟩

/-- Witness for C5 (amended) at a concrete nonzero direction. -/
theorem ray_unit_direction_witness :
    ((⟨0, 0, 1⟩ : Vector3) ≠ Vector3.zero) ∧
      (Ray.new Vector3.zero ⟨0, 0, 1⟩).direction.norm = 1 := by
  have hne : (⟨0, 0, 1⟩ : Vector3) ≠ Vector3.zero := by
    intro h
    have := congrArg Vector3.z h
    simp [Vector3.zero] at this
  exact ⟨hne, (ray_unit_direction Vector3.zero ⟨0, 0, 1⟩).1 hne⟩

/-- C6: `Vector3::normalize` maps the zero vector to itself unchanged, and
is idempotent on every vector. -/
theorem normalize_idempotent :
    Vector3.zero.normalize = Vector3.zero ∧
    ∀ v : Vector3, v.normalize.normalize = v.normalize := by
  constructor
  · exact Vector3.normalize_of_is_zero _ ⟨rfl, rfl, rfl⟩
  · intro v
    by_cases hv : v.is_zero
    · rw [Vector3.normalize_of_is_zero v hv, Vector3.normalize_of_is_zero v hv]
    · have h1 : v.normalize.norm = 1 := Vector3.norm_normalize v hv
      have hnz : ¬ v.normalize.is_zero := by
        intro hz
        rw [Vector3.norm_eq_zero_of_is_zero _ hz] at h1
        norm_num at h1
      rw [show v.normalize.normalize =
        if ¬ v.normalize.is_zero then v.normalize * (1 / v.normalize.norm)
        else v.normalize from rfl]
      rw [if_pos hnz, h1]
      ext <;> simp

/-! ### Sun lights (src/lights.rs, `Sun`) -/

/-- A light source emitting parallel rays (src/lights.rs, `struct Sun`). -/
structure Sun where
  color : Vector3
  direction : Vector3

/-- The sun constructor (src/lights.rs, `Sun::new`): the direction
argument is normalized before being stored. -/
noncomputable def Sun.new (color direction : Vector3) : Sun :=
  ⟨color, direction.normalize⟩

/-- C10: `Sun::new` normalizes its direction argument before storing it —
for a nonzero direction input `d` the stored direction is `d * (1/|d|)`, a
unit vector, and a zero direction input is stored as the zero vector. -/
theorem sun_new_normalizes (color direction : Vector3) :
    (direction ≠ Vector3.zero →
      (Sun.new color direction).direction = direction * (1 / direction.norm) ∧
      (Sun.new color direction).direction.norm = 1) ∧
    (Sun.new color Vector3.zero).direction = Vector3.zero := by
  constructor
  · intro h
    have hnz : ¬ direction.is_zero := fun hiz => h ((Vector3.is_zero_iff _).mp hiz)
    constructor
    · show direction.normalize = _
      unfold Vector3.normalize
      rw [if_pos hnz]
    · exact Vector3.norm_normalize _ hnz
  · exact Vector3.normalize_of_is_zero _ ⟨rfl, rfl, rfl⟩

/-- Witness for C10 at a concrete colour and nonzero direction. -/
theorem sun_new_normalizes_witness :
    ((⟨0, 0, 2⟩ : Vector3) ≠ Vector3.zero) ∧
      ((Sun.new ⟨1, 0, 0⟩ ⟨0, 0, 2⟩).direction =
          (⟨0, 0, 2⟩ : Vector3) * (1 / Vector3.norm ⟨0, 0, 2⟩) ∧
        (Sun.new ⟨1, 0, 0⟩ ⟨0, 0, 2⟩).direction.norm = 1) := by
  have hne : (⟨0, 0, 2⟩ : Vector3) ≠ Vector3.zero := by
    intro h
    have := congrArg Vector3.z h
    simp [Vector3.zero] at this
  exact ⟨hne, (sun_new_normalizes ⟨1, 0, 0⟩ ⟨0, 0, 2⟩).1 hne⟩

/-! ### Intervals and the bounding-box slab test (src/math.rs `Interval`,
src/surfaces.rs `BoundingBox`, `Sphere`) -/

/-- A closed interval of `f64` endpoints (src/math.rs, `struct Interval`).
The endpoints live in `EReal` because `BoundingBox::intersects` builds the
interval `Interval::new(NEG_INFINITY, INFINITY)` for a zero direction
component. -/
structure Interval where
  endpoints : EReal × EReal

/-- The interval constructor (src/math.rs, `Interval::new`): the two
arguments may arrive in either order and are sorted. -/
noncomputable def Interval.new (first_endpoint second_endpoint : EReal) : Interval :=
  if first_endpoint ≤ second_endpoint then ⟨(first_endpoint, second_endpoint)⟩
  else ⟨(second_endpoint, first_endpoint)⟩

/-- Endpoint accessor (src/math.rs, `Interval::get_endpoints`). -/
def Interval.get_endpoints (i : Interval) : EReal × EReal := i.endpoints

/-- Intersection of two closed intervals; `none` when the result is the
empty set (src/math.rs, `Interval::intersection`). -/
noncomputable def Interval.intersection (i other : Interval) : Option Interval :=
  if min i.endpoints.2 other.endpoints.2 < max i.endpoints.1 other.endpoints.1 then
    none
  else
    some (Interval.new (max i.endpoints.1 other.endpoints.1)
      (min i.endpoints.2 other.endpoints.2))

/-- An axis-aligned bounding box given by its lowest-coordinate and
highest-coordinate corners (src/surfaces.rs, `struct BoundingBox`). -/
structure BoundingBox where
  corners : Vector3 × Vector3

/-- The bounding-box constructor (src/surfaces.rs, `BoundingBox::new`). -/
def BoundingBox.new (first_corner second_corner : Vector3) : BoundingBox :=
  ⟨(first_corner, second_corner)⟩

/-- The successive slab narrowing inside src/surfaces.rs,
`BoundingBox::intersects`: the ray parameter interval after the x, y and z
slabs.  The source's early `return false` on an empty slab intersection is
restructured as an `Option` chain, with `none` standing for the early
return. -/
noncomputable def BoundingBox.slabInterval (b : BoundingBox) (ray : Ray) :
    Option Interval :=
  let t_interval :=
    if ray.direction.x ≠ 0 then
      Interval.new ((b.corners.1.x - ray.origin.x) / ray.direction.x : ℝ)
        ((b.corners.2.x - ray.origin.x) / ray.direction.x : ℝ)
    else Interval.new ⊥ ⊤
  let afterY :=
    if ray.direction.y ≠ 0 then
      t_interval.intersection (Interval.new
        ((b.corners.1.y - ray.origin.y) / ray.direction.y : ℝ)
        ((b.corners.2.y - ray.origin.y) / ray.direction.y : ℝ))
    else some t_interval
  match afterY with
  | none => none
  | some t_interval =>
    if ray.direction.z ≠ 0 then
      t_interval.intersection (Interval.new
        ((b.corners.1.z - ray.origin.z) / ray.direction.z : ℝ)
        ((b.corners.2.z - ray.origin.z) / ray.direction.z : ℝ))
    else some t_interval

/-- Does the ray intersect the bounding box?  (src/surfaces.rs,
`BoundingBox::intersects`): the slab chain must not come up empty, and at
least one endpoint of the resulting parameter interval must be
nonnegative. -/
def BoundingBox.intersects (b : BoundingBox) (ray : Ray) : Prop :=
  match b.slabInterval ray with
  | none => False
  | some t_interval =>
    t_interval.get_endpoints.1 ≥ 0 ∨ t_interval.get_endpoints.2 ≥ 0

/-- A sphere (src/surfaces.rs, `struct Sphere`). -/
structure Sphere where
  center_pos : Vector3
  radius : ℝ

/-- The sphere constructor (src/surfaces.rs, `Sphere::new`). -/
def Sphere.new (center_pos : Vector3) (radius : ℝ) : Sphere :=
  ⟨center_pos, radius⟩

/-- The axis-aligned bounding box of a sphere (src/surfaces.rs,
`Sphere::bounding_box`). -/
noncomputable def Sphere.bounding_box (s : Sphere) : BoundingBox :=
  BoundingBox.new (s.center_pos - s.radius * Vector3.ones)
    (s.center_pos + s.radius * Vector3.ones)

/-- Length along a ray to its first intersection with the sphere
(src/surfaces.rs, `Sphere::closest_intersection`): the bounding-box test
first, then the reduced-discriminant quadratic; `is_sign_negative()` on
the discriminant is embedded as `< 0` (real numbers carry no negative
zero). -/
noncomputable def Sphere.closest_intersection (s : Sphere) (ray : Ray) :
    Option ℝ :=
  if (s.bounding_box).intersects ray then
    let origin_to_center := s.center_pos - ray.origin
    let origin_to_center_dot_dir := origin_to_center.dot ray.direction
    let discriminant := origin_to_center_dot_dir ^ 2 -
      (origin_to_center.norm2 - s.radius ^ 2)
    if discriminant < 0 then none
    else some (origin_to_center_dot_dir - Real.sqrt discriminant)
  else none

/-- C3: for every sphere and every ray that passes the bounding-box slab
test, `Sphere::closest_intersection` returns `none` exactly when the
reduced discriminant `((center-origin)·dir)² - (|center-origin|² - r²)` is
negative, and otherwise returns the near root `b - √disc` with
`b = (center-origin)·dir`, with no clamp to the root being nonnegative. -/
theorem sphere_closest_intersection_spec (s : Sphere) (ray : Ray)
    (hbox : (s.bounding_box).intersects ray) :
    (s.closest_intersection ray = none ↔
      ((s.center_pos - ray.origin).dot ray.direction) ^ 2 -
        ((s.center_pos - ray.origin).norm2 - s.radius ^ 2) < 0) ∧
    (0 ≤ ((s.center_pos - ray.origin).dot ray.direction) ^ 2 -
        ((s.center_pos - ray.origin).norm2 - s.radius ^ 2) →
      s.closest_intersection ray =
        some ((s.center_pos - ray.origin).dot ray.direction -
          Real.sqrt (((s.center_pos - ray.origin).dot ray.direction) ^ 2 -
            ((s.center_pos - ray.origin).norm2 - s.radius ^ 2)))) := by
  have hunfold : s.closest_intersection ray =
      if ((s.center_pos - ray.origin).dot ray.direction) ^ 2 -
          ((s.center_pos - ray.origin).norm2 - s.radius ^ 2) < 0 then none
      else some ((s.center_pos - ray.origin).dot ray.direction -
        Real.sqrt (((s.center_pos - ray.origin).dot ray.direction) ^ 2 -
          ((s.center_pos - ray.origin).norm2 - s.radius ^ 2))) := by
    unfold Sphere.closest_intersection
    rw [if_pos hbox]
  rw [hunfold]
  constructor
  · constructor
    · intro hnone
      by_contra hge
      rw [if_neg hge] at hnone
      exact Option.noConfusion hnone
    · intro hlt
      rw [if_pos hlt]
  · intro hge
    rw [if_neg (not_lt.mpr hge)]

/-- Witness for C3: a concrete sphere and ray passing the slab test. -/
theorem sphere_closest_intersection_spec_witness :
    ((Sphere.new ⟨5, 5, 5⟩ 1).bounding_box.intersects
        ⟨Vector3.zero, ⟨1, 1, 1⟩⟩) ∧
    (((Sphere.new ⟨5, 5, 5⟩ 1).closest_intersection ⟨Vector3.zero, ⟨1, 1, 1⟩⟩ = none ↔
        (((Sphere.new ⟨5, 5, 5⟩ 1).center_pos -
            (⟨Vector3.zero, ⟨1, 1, 1⟩⟩ : Ray).origin).dot
          (⟨Vector3.zero, ⟨1, 1, 1⟩⟩ : Ray).direction) ^ 2 -
          (((Sphere.new ⟨5, 5, 5⟩ 1).center_pos -
              (⟨Vector3.zero, ⟨1, 1, 1⟩⟩ : Ray).origin).norm2 -
            (Sphere.new ⟨5, 5, 5⟩ 1).radius ^ 2) < 0) ∧
      (0 ≤ (((Sphere.new ⟨5, 5, 5⟩ 1).center_pos -
            (⟨Vector3.zero, ⟨1, 1, 1⟩⟩ : Ray).origin).dot
          (⟨Vector3.zero, ⟨1, 1, 1⟩⟩ : Ray).direction) ^ 2 -
          (((Sphere.new ⟨5, 5, 5⟩ 1).center_pos -
              (⟨Vector3.zero, ⟨1, 1, 1⟩⟩ : Ray).origin).norm2 -
            (Sphere.new ⟨5, 5, 5⟩ 1).radius ^ 2) →
        (Sphere.new ⟨5, 5, 5⟩ 1).closest_intersection ⟨Vector3.zero, ⟨1, 1, 1⟩⟩ =
          some ((((Sphere.new ⟨5, 5, 5⟩ 1).center_pos -
              (⟨Vector3.zero, ⟨1, 1, 1⟩⟩ : Ray).origin).dot
            (⟨Vector3.zero, ⟨1, 1, 1⟩⟩ : Ray).direction) -
            Real.sqrt ((((Sphere.new ⟨5, 5, 5⟩ 1).center_pos -
                (⟨Vector3.zero, ⟨1, 1, 1⟩⟩ : Ray).origin).dot
              (⟨Vector3.zero, ⟨1, 1, 1⟩⟩ : Ray).direction) ^ 2 -
              (((Sphere.new ⟨5, 5, 5⟩ 1).center_pos -
                  (⟨Vector3.zero, ⟨1, 1, 1⟩⟩ : Ray).origin).norm2 -
                (Sphere.new ⟨5, 5, 5⟩ 1).radius ^ 2))))) := by
  have hslab : (Sphere.new ⟨5, 5, 5⟩ 1).bounding_box.slabInterval
      ⟨Vector3.zero, ⟨1, 1, 1⟩⟩ =
      some ⟨(((4 : ℝ) : EReal), ((6 : ℝ) : EReal))⟩ := by
    have hcorners : (Sphere.new ⟨5, 5, 5⟩ 1).bounding_box =
        BoundingBox.new ⟨4, 4, 4⟩ ⟨6, 6, 6⟩ := by
      unfold Sphere.bounding_box Sphere.new
      simp only [Vector3.smul_def, Vector3.sub_def, Vector3.add_def,
        Vector3.ones, Vector3.neg_def]
      norm_num
    rw [hcorners]
    unfold BoundingBox.slabInterval BoundingBox.new
    dsimp only [Vector3.zero]
    norm_num [Interval.intersection, Interval.new,
      EReal.coe_le_coe_iff, EReal.coe_lt_coe_iff]
  have hbox : (Sphere.new ⟨5, 5, 5⟩ 1).bounding_box.intersects
      ⟨Vector3.zero, ⟨1, 1, 1⟩⟩ := by
    unfold BoundingBox.intersects
    rw [hslab]
    left
    show (0 : EReal) ≤ ((4 : ℝ) : EReal)
    rw [show ((0 : EReal) = ((0 : ℝ) : EReal)) from rfl, EReal.coe_le_coe_iff]
    norm_num
  exact ⟨hbox, sphere_closest_intersection_spec _ _ hbox⟩

/-! ### Scene tracing (src/scene.rs, `Scene::trace`) -/

/-- The value of `std::f64::EPSILON`, the f64 machine epsilon `2⁻⁵²`. -/
noncomputable def EPSILON : ℝ := 2 ^ (-52 : ℤ)

/-- The self-intersection threshold `EPSILON.sqrt()` used by
`Scene::trace` (src/scene.rs). -/
noncomputable def sqrtEPSILON : ℝ := Real.sqrt EPSILON

lemma sqrtEPSILON_eq : sqrtEPSILON = 2 ^ (-26 : ℤ) := by
  unfold sqrtEPSILON EPSILON
  rw [show ((2 : ℝ) ^ (-52 : ℤ)) = ((2 : ℝ) ^ (-26 : ℤ)) ^ (2 : ℕ) by
    rw [← zpow_natCast ((2 : ℝ) ^ (-26 : ℤ)) 2, ← zpow_mul]
    norm_num]
  exact Real.sqrt_sq (by positivity)

lemma sqrtEPSILON_pos : 0 < sqrtEPSILON := by
  rw [sqrtEPSILON_eq]; positivity

lemma sqrtEPSILON_lt_one : sqrtEPSILON < 1 := by
  rw [sqrtEPSILON_eq]
  norm_num

/-- A surface of a scene, modelled by its `closest_intersection` method —
this is the `dyn Surface` trait object stored in `Scene::surfaces`.  The
`Surface` trait declaration itself is not under src/ (src/surfaces.rs is
an earlier revision without it); per spec §4.1 and the call site in
`Scene::trace`, its contract is
`closest_intersection(&Ray) -> Option<(distance, unit_normal)>`. -/
def Surface : Type := Ray → Option (ℝ × Vector3)

/-- A scene, reduced to its surface list: `Scene::trace` reads nothing
else of the scene. -/
structure Scene where
  surfaces : List Surface

/-- The loop of src/scene.rs, `Scene::trace`: loop state is
`closest_intersection : f64` (initially `INFINITY`, embedded as
`⊤ : EReal`) and `result` (initially `None`).  A surface intersection is
skipped when its distance is `≤ EPSILON.sqrt()`; a kept intersection
updates the state when its distance is strictly below the closest one so
far. -/
noncomputable def traceLoop (ray : Ray) :
    List Surface → EReal → Option (Vector3 × Vector3) → Option (Vector3 × Vector3)
  | [], _, result => result
  | surface :: rest, closest_intersection, result =>
    match surface ray with
    | none => traceLoop ray rest closest_intersection result
    | some (distance, normal) =>
      if distance ≤ sqrtEPSILON then
        traceLoop ray rest closest_intersection result
      else if (distance : EReal) < closest_intersection then
        traceLoop ray rest (distance : EReal)
          (some (ray.origin + distance * ray.direction, normal))
      else traceLoop ray rest closest_intersection result

/-- src/scene.rs, `Scene::trace`. -/
noncomputable def Scene.trace (scene : Scene) (ray : Ray) :
    Option (Vector3 × Vector3) :=
  traceLoop ray scene.surfaces ⊤ none

/-- The intersections that `Scene::trace` keeps, in surface-list order:
the `(distance, normal)` pairs whose distance is strictly above the
`√EPSILON` threshold. -/
noncomputable def keptPairs (surfaces : List Surface) (ray : Ray) :
    List (ℝ × Vector3) :=
  surfaces.filterMap (fun surface =>
    match surface ray with
    | none => none
    | some (distance, normal) =>
      if distance ≤ sqrtEPSILON then none else some (distance, normal))

/-- The running strict-minimum scan that the trace loop performs on the
kept intersections: the winner is the first pair achieving the minimum
distance below the initial bound. -/
noncomputable def runMin : EReal → List (ℝ × Vector3) → Option (ℝ × Vector3)
  | _, [] => none
  | closest, (distance, normal) :: rest =>
    if (distance : EReal) < closest then
      match runMin (distance : EReal) rest with
      | none => some (distance, normal)
      | some p => some p
    else runMin closest rest

lemma keptPairs_cons (surface : Surface) (rest : List Surface) (ray : Ray) :
    keptPairs (surface :: rest) ray =
      match surface ray with
      | none => keptPairs rest ray
      | some (distance, normal) =>
        if distance ≤ sqrtEPSILON then keptPairs rest ray
        else (distance, normal) :: keptPairs rest ray := by
  unfold keptPairs
  rw [List.filterMap_cons]
  cases hs : surface ray with
  | none => rfl
  | some p =>
    obtain ⟨distance, normal⟩ := p
    dsimp only
    by_cases hd : distance ≤ sqrtEPSILON
    · rw [if_pos hd, if_pos hd]
    · rw [if_neg hd, if_neg hd]

lemma traceLoop_eq_runMin (ray : Ray) (surfaces : List Surface) :
    ∀ (closest : EReal) (result : Option (Vector3 × Vector3)),
    traceLoop ray surfaces closest result =
      match runMin closest (keptPairs surfaces ray) with
      | none => result
      | some (d, n) => some (ray.origin + d * ray.direction, n) := by
  induction surfaces with
  | nil =>
    intro closest result
    simp [traceLoop, keptPairs, runMin]
  | cons surface rest ih =>
    intro closest result
    rw [keptPairs_cons]
    cases hs : surface ray with
    | none =>
      rw [show traceLoop ray (surface :: rest) closest result =
        (match surface ray with
          | none => traceLoop ray rest closest result
          | some (distance, normal) =>
            if distance ≤ sqrtEPSILON then
              traceLoop ray rest closest result
            else if (distance : EReal) < closest then
              traceLoop ray rest (distance : EReal)
                (some (ray.origin + distance * ray.direction, normal))
            else traceLoop ray rest closest result) from rfl, hs]
      exact ih closest result
    | some p =>
      obtain ⟨distance, normal⟩ := p
      rw [show traceLoop ray (surface :: rest) closest result =
        (match surface ray with
          | none => traceLoop ray rest closest result
          | some (distance, normal) =>
            if distance ≤ sqrtEPSILON then
              traceLoop ray rest closest result
            else if (distance : EReal) < closest then
              traceLoop ray rest (distance : EReal)
                (some (ray.origin + distance * ray.direction, normal))
            else traceLoop ray rest closest result) from rfl, hs]
      dsimp only
      by_cases hd : distance ≤ sqrtEPSILON
      · rw [if_pos hd, if_pos hd]
        exact ih closest result
      · rw [if_neg hd, if_neg hd]
        by_cases hlt : (distance : EReal) < closest
        · rw [if_pos hlt]
          rw [show runMin closest ((distance, normal) :: keptPairs rest ray) =
            (if (distance : EReal) < closest then
              match runMin (distance : EReal) (keptPairs rest ray) with
              | none => some (distance, normal)
              | some p => some p
            else runMin closest (keptPairs rest ray)) from rfl, if_pos hlt]
          rw [ih (distance : EReal) (some (ray.origin + distance * ray.direction, normal))]
          cases hrm : runMin (distance : EReal) (keptPairs rest ray) with
          | none => rfl
          | some p => obtain ⟨d, n⟩ := p; rfl
        · rw [if_neg hlt]
          rw [show runMin closest ((distance, normal) :: keptPairs rest ray) =
            (if (distance : EReal) < closest then
              match runMin (distance : EReal) (keptPairs rest ray) with
              | none => some (distance, normal)
              | some p => some p
            else runMin closest (keptPairs rest ray)) from rfl, if_neg hlt]
          exact ih closest result

lemma runMin_none_forall (l : List (ℝ × Vector3)) :
    ∀ closest : EReal, runMin closest l = none →
      ∀ q ∈ l, ¬ ((q.1 : EReal) < closest) := by
  induction l with
  | nil =>
    intro closest _ q hq
    exact absurd hq (List.not_mem_nil q)
  | cons p rest ih =>
    intro closest h q hq
    obtain ⟨distance, normal⟩ := p
    rw [show runMin closest ((distance, normal) :: rest) =
      (if (distance : EReal) < closest then
        match runMin (distance : EReal) rest with
        | none => some (distance, normal)
        | some p => some p
      else runMin closest rest) from rfl] at h
    by_cases hlt : (distance : EReal) < closest
    · rw [if_pos hlt] at h
      exfalso
      cases hrm : runMin (distance : EReal) rest with
      | none => rw [hrm] at h; exact Option.noConfusion h
      | some p => rw [hrm] at h; exact Option.noConfusion h
    · rw [if_neg hlt] at h
      rcases List.mem_cons.mp hq with rfl | hq'
      · exact hlt
      · exact ih closest h q hq'

lemma runMin_some_spec (l : List (ℝ × Vector3)) :
    ∀ (closest : EReal) (d : ℝ) (n : Vector3),
      runMin closest l = some (d, n) →
      (d : EReal) < closest ∧
      ∃ l₁ l₂, l = l₁ ++ (d, n) :: l₂ ∧
        (∀ q ∈ l₁, d < q.1) ∧ (∀ q ∈ l₂, d ≤ q.1) := by
  induction l with
  | nil =>
    intro closest d n h
    exact absurd h (by simp [runMin])
  | cons p rest ih =>
    intro closest d n h
    obtain ⟨d₀, n₀⟩ := p
    rw [show runMin closest ((d₀, n₀) :: rest) =
      (if (d₀ : EReal) < closest then
        match runMin (d₀ : EReal) rest with
        | none => some (d₀, n₀)
        | some p => some p
      else runMin closest rest) from rfl] at h
    by_cases hlt : (d₀ : EReal) < closest
    · rw [if_pos hlt] at h
      cases hrm : runMin (d₀ : EReal) rest with
      | none =>
        rw [hrm] at h
        have hdn : d₀ = d ∧ n₀ = n := by
          have := Option.some.inj h
          exact ⟨congrArg Prod.fst this, congrArg Prod.snd this⟩
        obtain ⟨rfl, rfl⟩ := hdn
        refine ⟨hlt, [], rest, rfl, by simp, ?_⟩
        intro q hq
        have hnot := runMin_none_forall rest (d₀ : EReal) hrm q hq
        rw [EReal.coe_lt_coe_iff] at hnot
        exact not_lt.mp hnot
      | some p' =>
        rw [hrm] at h
        have hp' : p' = (d, n) := Option.some.inj h
        subst hp'
        obtain ⟨hdlt, l₁, l₂, hsplit, hl₁, hl₂⟩ := ih (d₀ : EReal) d n hrm
        have hdd₀ : d < d₀ := EReal.coe_lt_coe_iff.mp hdlt
        refine ⟨lt_trans hdlt hlt, (d₀, n₀) :: l₁, l₂, by rw [hsplit, List.cons_append], ?_, hl₂⟩
        intro q hq
        rcases List.mem_cons.mp hq with rfl | hq'
        · exact hdd₀
        · exact hl₁ q hq'
    · rw [if_neg hlt] at h
      obtain ⟨hdlt, l₁, l₂, hsplit, hl₁, hl₂⟩ := ih closest d n h
      have hdd₀ : d < d₀ := by
        have hc : closest ≤ (d₀ : EReal) := not_lt.mp hlt
        exact EReal.coe_lt_coe_iff.mp (lt_of_lt_of_le hdlt hc)
      refine ⟨hdlt, (d₀, n₀) :: l₁, l₂, by rw [hsplit, List.cons_append], ?_, hl₂⟩
      intro q hq
      rcases List.mem_cons.mp hq with rfl | hq'
      · exact hdd₀
      · exact hl₁ q hq'

/-- C2 (amended): `Scene::trace` returns `none` exactly when no surface
intersection has distance strictly above the `√EPSILON` threshold; and
when it returns a hit, the hit point is `origin + d · direction` where
`d` is the minimum over all surface intersection distances strictly
greater than the threshold, the normal being supplied by the earliest
surface in the list achieving that minimum (all kept pairs before it have
strictly larger distance). -/
theorem scene_trace_nearest_hit (scene : Scene) (ray : Ray) :
    (scene.trace ray = none ↔ keptPairs scene.surfaces ray = []) ∧
    (∀ p n, scene.trace ray = some (p, n) →
      ∃ d, p = ray.origin + d * ray.direction ∧
        (d, n) ∈ keptPairs scene.surfaces ray ∧
        (∀ q ∈ keptPairs scene.surfaces ray, d ≤ q.1) ∧
        ∃ l₁ l₂, keptPairs scene.surfaces ray = l₁ ++ (d, n) :: l₂ ∧
          ∀ q ∈ l₁, d < q.1) := by
  have hloop := traceLoop_eq_runMin ray scene.surfaces ⊤ none
  have htrace : scene.trace ray =
      match runMin ⊤ (keptPairs scene.surfaces ray) with
      | none => none
      | some (d, n) => some (ray.origin + d * ray.direction, n) := hloop
  constructor
  · constructor
    · intro hnone
      rw [htrace] at hnone
      cases hrm : runMin ⊤ (keptPairs scene.surfaces ray) with
      | none =>
        cases hk : keptPairs scene.surfaces ray with
        | nil => rfl
        | cons q rest =>
          exfalso
          obtain ⟨distance, normal⟩ := q
          rw [hk] at hrm
          rw [show runMin ⊤ ((distance, normal) :: rest) =
            (if (distance : EReal) < ⊤ then
              match runMin (distance : EReal) rest with
              | none => some (distance, normal)
              | some p => some p
            else runMin ⊤ rest) from rfl, if_pos (EReal.coe_lt_top distance)] at hrm
          cases hrm2 : runMin (distance : EReal) rest with
          | none => rw [hrm2] at hrm; exact Option.noConfusion hrm
          | some p => rw [hrm2] at hrm; exact Option.noConfusion hrm
      | some p =>
        exfalso
        obtain ⟨d, n⟩ := p
        rw [hrm] at hnone
        exact Option.noConfusion hnone
    · intro hk
      rw [htrace, hk]
      rfl
  · intro p n hsome
    rw [htrace] at hsome
    cases hrm : runMin ⊤ (keptPairs scene.surfaces ray) with
    | none =>
      rw [hrm] at hsome
      exact absurd hsome (by simp)
    | some q =>
      obtain ⟨d, n'⟩ := q
      rw [hrm] at hsome
      have hpn : ray.origin + d * ray.direction = p ∧ n' = n := by
        have := Option.some.inj hsome
        exact ⟨congrArg Prod.fst this, congrArg Prod.snd this⟩
      obtain ⟨hp, rfl⟩ := hpn
      obtain ⟨_, l₁, l₂, hsplit, hl₁, hl₂⟩ :=
        runMin_some_spec (keptPairs scene.surfaces ray) ⊤ d n' hrm
      refine ⟨d, hp.symm, ?_, ?_, l₁, l₂, hsplit, hl₁⟩
      · rw [hsplit]
        exact List.mem_append_right _ (List.mem_cons_self _ _)
      · intro q hq
        rw [hsplit] at hq
        rcases List.mem_append.mp hq with hq1 | hq2
        · exact le_of_lt (hl₁ q hq1)
        · rcases List.mem_cons.mp hq2 with rfl | hq3
          · exact le_refl _
          · exact hl₂ q hq3

/-- Witness for C2 (amended): a one-surface scene whose surface reports a
hit at distance 1. -/
theorem scene_trace_nearest_hit_witness :
    (Scene.trace ⟨[fun _ => some (1, ⟨1, 0, 0⟩)]⟩ ⟨Vector3.zero, ⟨0, 0, 1⟩⟩ =
      some (Vector3.zero + (1 : ℝ) * (⟨0, 0, 1⟩ : Vector3), ⟨1, 0, 0⟩)) ∧
    ∃ d, Vector3.zero + (1 : ℝ) * (⟨0, 0, 1⟩ : Vector3) =
        (⟨Vector3.zero, ⟨0, 0, 1⟩⟩ : Ray).origin +
          d * (⟨Vector3.zero, ⟨0, 0, 1⟩⟩ : Ray).direction ∧
      (d, (⟨1, 0, 0⟩ : Vector3)) ∈
        keptPairs [fun _ => some (1, ⟨1, 0, 0⟩)] ⟨Vector3.zero, ⟨0, 0, 1⟩⟩ ∧
      (∀ q ∈ keptPairs [fun _ => some (1, ⟨1, 0, 0⟩)] ⟨Vector3.zero, ⟨0, 0, 1⟩⟩,
        d ≤ q.1) ∧
      ∃ l₁ l₂, keptPairs [fun _ => some (1, ⟨1, 0, 0⟩)]
          ⟨Vector3.zero, ⟨0, 0, 1⟩⟩ = l₁ ++ (d, (⟨1, 0, 0⟩ : Vector3)) :: l₂ ∧
        ∀ q ∈ l₁, d < q.1 := by
  have h2 : ¬ ((1 : ℝ) ≤ sqrtEPSILON) := not_le.mpr sqrtEPSILON_lt_one
  have heval : Scene.trace ⟨[fun _ => some (1, ⟨1, 0, 0⟩)]⟩
      ⟨Vector3.zero, ⟨0, 0, 1⟩⟩ =
      some (Vector3.zero + (1 : ℝ) * (⟨0, 0, 1⟩ : Vector3), ⟨1, 0, 0⟩) := by
    show traceLoop _ _ _ _ = _
    rw [show traceLoop ⟨Vector3.zero, ⟨0, 0, 1⟩⟩
        [fun _ => some (1, ⟨1, 0, 0⟩)] ⊤ none =
      (if (1 : ℝ) ≤ sqrtEPSILON then
        traceLoop ⟨Vector3.zero, ⟨0, 0, 1⟩⟩ [] ⊤ none
      else if ((1 : ℝ) : EReal) < ⊤ then
        traceLoop ⟨Vector3.zero, ⟨0, 0, 1⟩⟩ [] ((1 : ℝ) : EReal)
          (some ((⟨Vector3.zero, ⟨0, 0, 1⟩⟩ : Ray).origin +
            (1 : ℝ) * (⟨Vector3.zero, ⟨0, 0, 1⟩⟩ : Ray).direction, ⟨1, 0, 0⟩))
      else traceLoop ⟨Vector3.zero, ⟨0, 0, 1⟩⟩ [] ⊤ none) from rfl]
    rw [if_neg h2, if_pos (EReal.coe_lt_top 1)]
    rfl
  exact ⟨heval, (scene_trace_nearest_hit ⟨[fun _ => some (1, ⟨1, 0, 0⟩)]⟩
    ⟨Vector3.zero, ⟨0, 0, 1⟩⟩).2 _ _ heval⟩

/-- The surface intersections whose distance is at least the threshold
(the spec's `≥ √EPSILON` reading), used to state C2 exactly as given. -/
noncomputable def keptPairsGE (surfaces : List Surface) (ray : Ray) :
    List (ℝ × Vector3) :=
  surfaces.filterMap (fun surface =>
    match surface ray with
    | none => none
    | some (distance, normal) =>
      if sqrtEPSILON ≤ distance then some (distance, normal) else none)

/-- C2 exactly as stated by the spec: `trace` returns `none` when no
intersection is strictly above the threshold, and otherwise the returned
distance is the minimum over intersection distances greater than or equal
to the threshold, ties broken by the earliest surface. -/
def traceClaimStatement : Prop :=
  ∀ (scene : Scene) (ray : Ray),
    (scene.trace ray = none ↔ keptPairs scene.surfaces ray = []) ∧
    (∀ p n, scene.trace ray = some (p, n) →
      ∃ d, p = ray.origin + d * ray.direction ∧
        (d, n) ∈ keptPairsGE scene.surfaces ray ∧
        (∀ q ∈ keptPairsGE scene.surfaces ray, d ≤ q.1) ∧
        ∃ l₁ l₂, keptPairsGE scene.surfaces ray = l₁ ++ (d, n) :: l₂ ∧
          ∀ q ∈ l₁, d < q.1)

/-- C2 as stated is false: with a first surface at distance exactly
`√EPSILON` and a second at distance 1, the minimum over distances `≥` the
threshold is `√EPSILON`, but `Scene::trace` skips the first surface (the
code keeps only distances strictly greater than the threshold) and
returns the hit of the second surface at distance 1. -/
theorem scene_trace_counterexample : ¬ traceClaimStatement := by
  intro hclaim
  have h1 : ¬ (sqrtEPSILON > sqrtEPSILON) := lt_irrefl _
  have h2 : ¬ ((1 : ℝ) ≤ sqrtEPSILON) := not_le.mpr sqrtEPSILON_lt_one
  have heval : Scene.trace
      ⟨[fun _ => some (sqrtEPSILON, ⟨1, 0, 0⟩), fun _ => some (1, ⟨0, 1, 0⟩)]⟩
      ⟨Vector3.zero, ⟨0, 0, 1⟩⟩ =
      some (Vector3.zero + (1 : ℝ) * (⟨0, 0, 1⟩ : Vector3), ⟨0, 1, 0⟩) := by
    show traceLoop _ _ _ _ = _
    rw [show traceLoop ⟨Vector3.zero, ⟨0, 0, 1⟩⟩
        [fun _ => some (sqrtEPSILON, ⟨1, 0, 0⟩), fun _ => some (1, ⟨0, 1, 0⟩)]
        ⊤ none =
      (if sqrtEPSILON ≤ sqrtEPSILON then
        traceLoop ⟨Vector3.zero, ⟨0, 0, 1⟩⟩
          [fun _ => some (1, ⟨0, 1, 0⟩)] ⊤ none
      else if ((sqrtEPSILON : ℝ) : EReal) < ⊤ then
        traceLoop ⟨Vector3.zero, ⟨0, 0, 1⟩⟩
          [fun _ => some (1, ⟨0, 1, 0⟩)] ((sqrtEPSILON : ℝ) : EReal)
          (some ((⟨Vector3.zero, ⟨0, 0, 1⟩⟩ : Ray).origin +
            sqrtEPSILON * (⟨Vector3.zero, ⟨0, 0, 1⟩⟩ : Ray).direction, ⟨1, 0, 0⟩))
      else traceLoop ⟨Vector3.zero, ⟨0, 0, 1⟩⟩
        [fun _ => some (1, ⟨0, 1, 0⟩)] ⊤ none) from rfl]
    rw [if_pos (le_refl sqrtEPSILON)]
    rw [show traceLoop ⟨Vector3.zero, ⟨0, 0, 1⟩⟩
        [fun _ => some (1, ⟨0, 1, 0⟩)] ⊤ none =
      (if (1 : ℝ) ≤ sqrtEPSILON then
        traceLoop ⟨Vector3.zero, ⟨0, 0, 1⟩⟩ [] ⊤ none
      else if ((1 : ℝ) : EReal) < ⊤ then
        traceLoop ⟨Vector3.zero, ⟨0, 0, 1⟩⟩ [] ((1 : ℝ) : EReal)
          (some ((⟨Vector3.zero, ⟨0, 0, 1⟩⟩ : Ray).origin +
            (1 : ℝ) * (⟨Vector3.zero, ⟨0, 0, 1⟩⟩ : Ray).direction, ⟨0, 1, 0⟩))
      else traceLoop ⟨Vector3.zero, ⟨0, 0, 1⟩⟩ [] ⊤ none) from rfl]
    rw [if_neg h2, if_pos (EReal.coe_lt_top 1)]
    rfl
  obtain ⟨d, hp, _, hmin, _⟩ := (hclaim
    ⟨[fun _ => some (sqrtEPSILON, ⟨1, 0, 0⟩), fun _ => some (1, ⟨0, 1, 0⟩)]⟩
    ⟨Vector3.zero, ⟨0, 0, 1⟩⟩).2 _ _ heval
  have hd1 : d = 1 := by
    have hz := congrArg Vector3.z hp
    simp only [Vector3.add_def, Vector3.smul_def, Vector3.zero] at hz
    norm_num at hz
    linarith [hz]
  have hmemGE : (sqrtEPSILON, (⟨1, 0, 0⟩ : Vector3)) ∈ keptPairsGE
      [fun _ => some (sqrtEPSILON, ⟨1, 0, 0⟩), fun _ => some (1, ⟨0, 1, 0⟩)]
      ⟨Vector3.zero, ⟨0, 0, 1⟩⟩ := by
    unfold keptPairsGE
    rw [List.filterMap_cons]
    rw [show ((fun (_ : Ray) => some (sqrtEPSILON, (⟨1, 0, 0⟩ : Vector3)))
        (⟨Vector3.zero, ⟨0, 0, 1⟩⟩ : Ray)) = some (sqrtEPSILON, ⟨1, 0, 0⟩) from rfl]
    simp only [le_refl, if_pos]
    exact List.mem_cons_self _ _
  have hle := hmin _ hmemGE
  rw [hd1] at hle
  exact absurd hle (not_le.mpr sqrtEPSILON_lt_one)

/-! ### Images and pixels (src/image.rs) -/

/-- A pixel of RGBA floating-point data (src/image.rs, `struct Pixel`). -/
structure Pixel where
  r : ℝ
  g : ℝ
  b : ℝ
  a : ℝ

/-- src/image.rs, `Pixel::new`. -/
def Pixel.new (r g b a : ℝ) : Pixel := ⟨r, g, b, a⟩

/-- Rust `f64::round`: round half away from zero. -/
noncomputable def rustRound (x : ℝ) : ℤ :=
  if 0 ≤ x then ⌊x + 1 / 2⌋ else ⌈x - 1 / 2⌉

/-- The Rust saturating float-to-`u8` cast `as u8`, applied to an already
rounded value: clamp into `[0, 255]`. -/
def u8cast (z : ℤ) : ℕ := (max 0 (min 255 z)).toNat

/-- An image of pixels together with its cached SRGBA byte data
(src/image.rs, `struct Image`). -/
structure Image where
  width : ℕ
  height : ℕ
  pixels : List Pixel
  srgba_data : List ℕ

/-- The SRGBA bytes pushed by the initialisation loop of `Image::new`:
`0, 0, 0, 255` once per pixel. -/
def initSrgba : ℕ → List ℕ
  | 0 => []
  | n + 1 => 0 :: 0 :: 0 :: 255 :: initSrgba n

/-- src/image.rs, `Image::new`: `width*height` black opaque pixels and the
matching SRGBA bytes. -/
noncomputable def Image.new (width height : ℕ) : Image :=
  { width := width, height := height,
    pixels := List.replicate (width * height) (Pixel.new 0 0 0 1),
    srgba_data := initSrgba (width * height) }

/-- src/image.rs, `Image::linear_to_srgb`: the sRGB gamma law followed by
`(srgb * 255.0).round() as u8`.  `powf(1.0/2.4)` is embedded as the real
power `Real.rpow`. -/
noncomputable def Image.linear_to_srgb (color : ℝ) : ℕ :=
  let srgb := if color < 0.0031308 then 12.92 * color
    else 1.055 * color ^ ((1 : ℝ) / 2.4) - 0.055
  u8cast (rustRound (srgb * 255))

/-- Possible outcomes of `Image::set_pixel`: one of the two `assert!`s
fails, a vector index is out of bounds (a Rust index panic), or the
updated image. -/
inductive SetPixelResult where
  | assertFailure : SetPixelResult
  | indexPanic : SetPixelResult
  | ok : Image → SetPixelResult

/-- src/image.rs, `Image::set_pixel`: assert `x < width` and
`y < height`, then write the pixel at `offset = width*y + x` and its four
gamma-encoded bytes at `offset*4 .. offset*4+3`.  The `Vec` index
assignments panic when out of bounds; that is modelled by the explicit
bounds test yielding `indexPanic`. -/
noncomputable def Image.set_pixel (image : Image) (x y : ℕ) (pixel : Pixel) :
    SetPixelResult :=
  if ¬ x < image.width then .assertFailure
  else if ¬ y < image.height then .assertFailure
  else
    let offset := image.width * y + x
    if offset < image.pixels.length ∧
        offset * 4 + 3 < image.srgba_data.length then
      .ok { image with
        pixels := image.pixels.set offset pixel,
        srgba_data :=
          ((((image.srgba_data.set (offset * 4) (Image.linear_to_srgb pixel.r)).set
            (offset * 4 + 1) (Image.linear_to_srgb pixel.g)).set
            (offset * 4 + 2) (Image.linear_to_srgb pixel.b)).set
            (offset * 4 + 3) (u8cast (rustRound (pixel.a * 255)))) }
    else .indexPanic

/-- C9: `Image::set_pixel(x, y, pixel)` fails an assertion exactly when
`x ≥ width` or `y ≥ height`; under the precondition `x < width` and
`y < height`, with the buffers sized as every `Image::new`-built image has
them (`width*height` pixels, `4*width*height` SRGBA bytes), the pixel
index `width*y + x` and all four derived byte indices are in bounds and
the call succeeds without panicking. -/
theorem set_pixel_bounds (image : Image) (x y : ℕ) (pixel : Pixel) :
    (image.set_pixel x y pixel = .assertFailure ↔
      image.width ≤ x ∨ image.height ≤ y) ∧
    (x < image.width → y < image.height →
      image.pixels.length = image.width * image.height →
      image.srgba_data.length = 4 * (image.width * image.height) →
      ∃ image', image.set_pixel x y pixel = .ok image') := by
  constructor
  · constructor
    · intro h
      by_contra hc
      push_neg at hc
      obtain ⟨hx, hy⟩ := hc
      unfold Image.set_pixel at h
      rw [if_neg (not_not_intro hx), if_neg (not_not_intro hy)] at h
      dsimp only at h
      by_cases hb : image.width * y + x < image.pixels.length ∧
          (image.width * y + x) * 4 + 3 < image.srgba_data.length
      · rw [if_pos hb] at h
        exact SetPixelResult.noConfusion h
      · rw [if_neg hb] at h
        exact SetPixelResult.noConfusion h
    · intro h
      unfold Image.set_pixel
      by_cases hx : x < image.width
      · have hy : image.height ≤ y := by
          rcases h with h1 | h2
          · omega
          · exact h2
        rw [if_neg (not_not_intro hx), if_pos (not_lt.mpr hy)]
      · rw [if_pos hx]
  · intro hx hy hpix hsrgba
    unfold Image.set_pixel
    rw [if_neg (not_not_intro hx), if_neg (not_not_intro hy)]
    have hoff : image.width * y + x < image.width * image.height := by
      calc image.width * y + x < image.width * y + image.width := by omega
        _ = image.width * (y + 1) := by ring
        _ ≤ image.width * image.height := Nat.mul_le_mul_left _ (by omega)
    have hb : image.width * y + x < image.pixels.length ∧
        (image.width * y + x) * 4 + 3 < image.srgba_data.length := by
      constructor
      · rw [hpix]; exact hoff
      · rw [hsrgba]; omega
    dsimp only
    rw [if_pos hb]
    exact ⟨_, rfl⟩

/-- Witness for C9 at a fresh 2×2 image from `Image::new`. -/
theorem set_pixel_bounds_witness :
    (1 < (Image.new 2 2).width ∧ 1 < (Image.new 2 2).height ∧
      (Image.new 2 2).pixels.length =
        (Image.new 2 2).width * (Image.new 2 2).height ∧
      (Image.new 2 2).srgba_data.length =
        4 * ((Image.new 2 2).width * (Image.new 2 2).height)) ∧
    ∃ image', (Image.new 2 2).set_pixel 1 1 (Pixel.new 0 0 0 1) = .ok image' := by
  have hw : (Image.new 2 2).width = 2 := rfl
  have hh : (Image.new 2 2).height = 2 := rfl
  have hp : (Image.new 2 2).pixels.length = 4 := by
    show (List.replicate (2 * 2) (Pixel.new 0 0 0 1)).length = 4
    rw [List.length_replicate]
  have hs : (Image.new 2 2).srgba_data.length = 16 := rfl
  refine ⟨⟨by rw [hw]; omega, by rw [hh]; omega,
    by rw [hp, hw, hh], by rw [hs, hw, hh]⟩, ?_⟩
  exact (set_pixel_bounds (Image.new 2 2) 1 1 (Pixel.new 0 0 0 1)).2
    (by rw [hw]; omega) (by rw [hh]; omega)
    (by rw [hp, hw, hh]) (by rw [hs, hw, hh])

/-- One `if`/`else if` update of the running (min, max) pair with one
channel value — the per-channel body of `Image::min_max`.  Note the
`else`: a value that updates the minimum is never examined for the
maximum. -/
noncomputable def minMaxStep (mm : EReal × EReal) (value : ℝ) : EReal × EReal :=
  if (value : EReal) < mm.1 then (value, mm.2)
  else if (value : EReal) > mm.2 then (mm.1, value)
  else mm

/-- src/image.rs, `Image::min_max`: fold the per-channel update over all
pixels in r, g, b order, starting from
`(min, max) = (INFINITY, NEG_INFINITY) = (⊤, ⊥)`. -/
noncomputable def Image.min_max (image : Image) : EReal × EReal :=
  image.pixels.foldl
    (fun mm pixel =>
      minMaxStep (minMaxStep (minMaxStep mm pixel.r) pixel.g) pixel.b)
    (⊤, ⊥)

/-- C7 / code bug: on the one-pixel image with channels `(3, 2, 1)` — not
all equal — `Image::min_max` returns `max = NEG_INFINITY`: each channel
value updates the running minimum, and the `else if` never examines it
for the maximum, so the maximum keeps its seed even though the image's
largest channel value is 3.  `Image::normalize` then scales by
`1/(max - min)`, the reciprocal of negative infinity, so it cannot map
the image maximum to 1 as
the claim (and the function's own doc comment) require. -/
theorem min_max_bug :
    (Image.min_max ⟨1, 1, [Pixel.new 3 2 1 1], initSrgba 1⟩ =
      (((1 : ℝ) : EReal), (⊥ : EReal))) ∧
    (Pixel.new 3 2 1 1).r = 3 ∧ ((⊥ : EReal) ≠ ((3 : ℝ) : EReal)) := by
  refine ⟨?_, rfl, (EReal.bot_lt_coe 3).ne⟩
  have s1 : minMaxStep (⊤, ⊥) (3 : ℝ) = (((3 : ℝ) : EReal), ⊥) := by
    unfold minMaxStep
    rw [if_pos (show ((3 : ℝ) : EReal) < (⊤, (⊥ : EReal)).1 from EReal.coe_lt_top 3)]
  have s2 : minMaxStep (((3 : ℝ) : EReal), ⊥) (2 : ℝ) = (((2 : ℝ) : EReal), ⊥) := by
    unfold minMaxStep
    rw [if_pos (show ((2 : ℝ) : EReal) < ((((3 : ℝ) : EReal), (⊥ : EReal))).1 by
      rw [show ((((3 : ℝ) : EReal), (⊥ : EReal))).1 = ((3 : ℝ) : EReal) from rfl,
        EReal.coe_lt_coe_iff]
      norm_num)]
  have s3 : minMaxStep (((2 : ℝ) : EReal), ⊥) (1 : ℝ) = (((1 : ℝ) : EReal), ⊥) := by
    unfold minMaxStep
    rw [if_pos (show ((1 : ℝ) : EReal) < ((((2 : ℝ) : EReal), (⊥ : EReal))).1 by
      rw [show ((((2 : ℝ) : EReal), (⊥ : EReal))).1 = ((2 : ℝ) : EReal) from rfl,
        EReal.coe_lt_coe_iff]
      norm_num)]
  show minMaxStep (minMaxStep (minMaxStep (⊤, ⊥) (Pixel.new 3 2 1 1).r)
    (Pixel.new 3 2 1 1).g) (Pixel.new 3 2 1 1).b = _
  rw [show (Pixel.new 3 2 1 1).r = (3 : ℝ) from rfl,
    show (Pixel.new 3 2 1 1).g = (2 : ℝ) from rfl,
    show (Pixel.new 3 2 1 1).b = (1 : ℝ) from rfl, s1, s2, s3]

lemma rustRound_mono : Monotone rustRound := by
  intro a b hab
  unfold rustRound
  by_cases ha : 0 ≤ a
  · rw [if_pos ha, if_pos (le_trans ha hab)]
    exact Int.floor_le_floor (by linarith)
  · rw [if_neg ha]
    by_cases hb : 0 ≤ b
    · rw [if_pos hb]
      have h1 : ⌈a - 1 / 2⌉ ≤ (0 : ℤ) := by
        have : ⌈a - 1 / 2⌉ ≤ ⌈(0 : ℝ) - 1 / 2⌉ := Int.ceil_le_ceil (by linarith)
        have h2 : ⌈(0 : ℝ) - 1 / 2⌉ = 0 := by norm_num
        omega
      have h3 : (0 : ℤ) ≤ ⌊b + 1 / 2⌋ := by
        apply Int.le_floor.mpr
        push_cast
        linarith
      omega
    · rw [if_neg hb]
      exact Int.ceil_le_ceil (by linarith)

lemma u8cast_mono : Monotone u8cast := by
  intro a b hab
  unfold u8cast
  exact Int.toNat_le_toNat
    (max_le_max (le_refl 0) (min_le_min (le_refl 255) hab))

lemma rpow_branch_lower :
    (9.5 : ℝ) / 255 ≤ 1.055 * (0.0031308 : ℝ) ^ ((1 : ℝ) / 2.4) - 0.055 := by
  have hexp : (1 : ℝ) / 2.4 = (5 : ℝ) / 12 := by norm_num
  rw [hexp]
  have hb : (0 : ℝ) ≤ 941 / 10761 := by norm_num
  have key : ((941 : ℝ) / 10761) ^ (12 : ℕ) ≤ (0.0031308 : ℝ) ^ (5 : ℕ) := by
    norm_num
  have hchain : (941 / 10761 : ℝ) ≤ (0.0031308 : ℝ) ^ ((5 : ℝ) / 12) := by
    calc (941 / 10761 : ℝ)
        = (((941 / 10761 : ℝ) ^ (12 : ℕ)) : ℝ) ^ ((1 : ℝ) / 12) := by
          rw [← Real.rpow_natCast (941 / 10761 : ℝ) 12,
            ← Real.rpow_mul hb]
          norm_num
      _ ≤ ((0.0031308 : ℝ) ^ (5 : ℕ)) ^ ((1 : ℝ) / 12) :=
          Real.rpow_le_rpow (by positivity) key (by norm_num)
      _ = (0.0031308 : ℝ) ^ ((5 : ℝ) / 12) := by
          rw [← Real.rpow_natCast (0.0031308 : ℝ) 5,
            ← Real.rpow_mul (by norm_num)]
          norm_num
  nlinarith [hchain]

lemma linear_byte_le (c : ℝ) (hc0 : 0 ≤ c) (hc : c < 0.0031308) :
    u8cast (rustRound (12.92 * c * 255)) ≤ 10 := by
  have hge : (0 : ℝ) ≤ 12.92 * c * 255 := by nlinarith
  have hfloor : ⌊12.92 * c * 255 + 1 / 2⌋ ≤ (10 : ℤ) := by
    have h11 : ⌊12.92 * c * 255 + 1 / 2⌋ < (11 : ℤ) := by
      apply Int.floor_lt.mpr
      push_cast
      nlinarith
    omega
  unfold rustRound
  rw [if_pos hge]
  unfold u8cast
  have hcap : max 0 (min 255 ⌊12.92 * c * 255 + 1 / 2⌋) ≤ (10 : ℤ) := by
    apply max_le
    · norm_num
    · exact le_trans (min_le_right _ _) hfloor
  have := Int.toNat_le_toNat hcap
  simpa using this

lemma power_byte_ge (c : ℝ) (hc : 0.0031308 ≤ c) :
    10 ≤ u8cast (rustRound ((1.055 * c ^ ((1 : ℝ) / 2.4) - 0.055) * 255)) := by
  have hmono : (0.0031308 : ℝ) ^ ((1 : ℝ) / 2.4) ≤ c ^ ((1 : ℝ) / 2.4) :=
    Real.rpow_le_rpow (by norm_num) hc (by norm_num)
  have hs : (9.5 : ℝ) / 255 ≤ 1.055 * c ^ ((1 : ℝ) / 2.4) - 0.055 := by
    have hbase := rpow_branch_lower
    linarith
  have hx : (9.5 : ℝ) ≤ (1.055 * c ^ ((1 : ℝ) / 2.4) - 0.055) * 255 := by
    linarith
  have hge0 : (0 : ℝ) ≤ (1.055 * c ^ ((1 : ℝ) / 2.4) - 0.055) * 255 := by
    linarith
  unfold rustRound u8cast
  rw [if_pos hge0]
  have hfloor : (10 : ℤ) ≤ ⌊(1.055 * c ^ ((1 : ℝ) / 2.4) - 0.055) * 255 + 1 / 2⌋ := by
    apply Int.le_floor.mpr
    push_cast
    linarith
  have hcap : (10 : ℤ) ≤
      max 0 (min 255 ⌊(1.055 * c ^ ((1 : ℝ) / 2.4) - 0.055) * 255 + 1 / 2⌋) := by
    refine le_trans (le_min (by norm_num) hfloor) (le_max_right 0 _)
  have := Int.toNat_le_toNat hcap
  simpa using this

/-- C8: `Image::linear_to_srgb` is monotonically non-decreasing on
`[0, 1]`: for `0 ≤ c₁ ≤ c₂ ≤ 1` the output byte of `c₁` is at most that
of `c₂` (the gamma law `12.92·c` below the `0.0031308` threshold and
`1.055·c^(1/2.4) - 0.055` above it, then `round(srgb·255)` cast to a
byte). -/
theorem linear_to_srgb_monotone (c₁ c₂ : ℝ) (h0 : 0 ≤ c₁) (h12 : c₁ ≤ c₂)
    (_h1 : c₂ ≤ 1) : Image.linear_to_srgb c₁ ≤ Image.linear_to_srgb c₂ := by
  have heq : ∀ c : ℝ, Image.linear_to_srgb c =
      u8cast (rustRound ((if c < 0.0031308 then 12.92 * c
        else 1.055 * c ^ ((1 : ℝ) / 2.4) - 0.055) * 255)) := fun c => rfl
  rw [heq, heq]
  by_cases hb1 : c₁ < 0.0031308
  · by_cases hb2 : c₂ < 0.0031308
    · rw [if_pos hb1, if_pos hb2]
      apply u8cast_mono
      apply rustRound_mono
      nlinarith
    · rw [if_pos hb1, if_neg hb2]
      have hA := linear_byte_le c₁ h0 hb1
      have hB := power_byte_ge c₂ (not_lt.mp hb2)
      omega
  · have hb2 : ¬ c₂ < 0.0031308 := not_lt.mpr (le_trans (not_lt.mp hb1) h12)
    rw [if_neg hb1, if_neg hb2]
    apply u8cast_mono
    apply rustRound_mono
    have hmono : c₁ ^ ((1 : ℝ) / 2.4) ≤ c₂ ^ ((1 : ℝ) / 2.4) :=
      Real.rpow_le_rpow h0 h12 (by norm_num)
    nlinarith

/-- Witness for C8 at `c₁ = 0`, `c₂ = 1`. -/
theorem linear_to_srgb_monotone_witness :
    (0 : ℝ) ≤ 0 ∧ (0 : ℝ) ≤ 1 ∧ (1 : ℝ) ≤ 1 ∧
      Image.linear_to_srgb 0 ≤ Image.linear_to_srgb 1 :=
  ⟨le_refl 0, by norm_num, le_refl 1,
    linear_to_srgb_monotone 0 1 (le_refl 0) (by norm_num) (le_refl 1)⟩

end Rustbeam
